import Mathlib

/-!
# Verification of the asmase builtin command/expression parser

This file is a shallow embedding of `src/Builtins/Parser.cpp` (C++ namespace
`Builtins`): the operator tables, the recursive-descent expression parser with
precedence climbing, and the top-level command parser with single-token-skip
error recovery.

The token type and the scanner cursor are declared in headers that are not part
of this snapshot; they are reconstructed here from their uses in `Parser.cpp`:
the token stream is a list of tokens whose head is the current token,
`consumeToken` drops the head, and a drained stream keeps reporting the
end-of-input token, which is how a scanner that stops at its EOF token behaves.
The diagnostic sink (`errorContext.printMessage`) is modelled by threading an
explicit list of emitted diagnostics through the parse.

The C++ functions are mutually recursive; termination is by token consumption.
We embed them as one step function `parseFuel` over an explicit call tag,
structurally recursive on a fuel counter that drops by one on every call, and
prove (claim C8) that fuel `4 * tokens + 8` always suffices, which is the
formal counterpart of the termination argument.
-/

namespace Asmase

/-- Token kinds, reconstructed from their uses in `Parser.cpp`
(`unaryTokenMap`, `binaryTokenMap`, the `switch` in `parsePrimaryExpr`,
and the `EOFT` / `UNKNOWN` checks). -/
inductive TokenType where
  | IDENTIFIER
  | INTEGER
  | FLOAT
  | STRING
  | VARIABLE
  | OPEN_PAREN
  | CLOSE_PAREN
  | PLUS
  | MINUS
  | STAR
  | SLASH
  | PERCENT
  | DOUBLE_EQUAL
  | EXCLAMATION_EQUAL
  | GREATER
  | LESS
  | GREATER_EQUAL
  | LESS_EQUAL
  | DOUBLE_AMPERSAND
  | DOUBLE_PIPE
  | AMPERSAND
  | PIPE
  | CARET
  | DOUBLE_LESS
  | DOUBLE_GREATER
  | EXCLAMATION
  | TILDE
  | UNKNOWN
  | EOFT
  deriving DecidableEq, BEq, Repr

/-- Unary operators (`enum class UnaryOpcode`), with the `NONE` sentinel. -/
inductive UnaryOpcode where
  | PLUS
  | MINUS
  | LOGIC_NEGATE
  | BIT_NEGATE
  | NONE
  deriving DecidableEq, BEq, Repr, Fintype

/-- Binary operators (`enum class BinaryOpcode`), with the `NONE` sentinel. -/
inductive BinaryOpcode where
  | ADD
  | SUBTRACT
  | MULTIPLY
  | DIVIDE
  | MOD
  | EQUALS
  | NOT_EQUALS
  | GREATER_THAN
  | LESS_THAN
  | GREATER_THAN_OR_EQUALS
  | LESS_THAN_OR_EQUALS
  | LOGIC_AND
  | LOGIC_OR
  | BIT_AND
  | BIT_OR
  | BIT_XOR
  | LEFT_SHIFT
  | RIGHT_SHIFT
  | NONE
  deriving DecidableEq, BEq, Repr, Fintype

/-- A scanner token: kind, raw text, and inclusive source column span. -/
structure Token where
  type : TokenType
  str : String
  columnStart : Int
  columnEnd : Int
  deriving DecidableEq, Repr

/-- One diagnostic reported to `errorContext.printMessage(msg, column)`. -/
structure Diag where
  msg : String
  column : Int
  deriving DecidableEq, Repr

/-- Parser state: the remaining token stream (head = current token) and the
diagnostics emitted so far (the `errorContext` side channel). -/
structure PState where
  toks : List Token
  diags : List Diag
  deriving DecidableEq, Repr

/-- `static std::map<TokenType, UnaryOpcode> unaryTokenMap` from `Parser.cpp`. -/
def unaryTokenMap : List (TokenType × UnaryOpcode) :=
  [(TokenType.PLUS, UnaryOpcode.PLUS),
   (TokenType.MINUS, UnaryOpcode.MINUS),
   (TokenType.EXCLAMATION, UnaryOpcode.LOGIC_NEGATE),
   (TokenType.TILDE, UnaryOpcode.BIT_NEGATE)]

/-- `static std::map<TokenType, BinaryOpcode> binaryTokenMap` from `Parser.cpp`. -/
def binaryTokenMap : List (TokenType × BinaryOpcode) :=
  [(TokenType.PLUS, BinaryOpcode.ADD),
   (TokenType.MINUS, BinaryOpcode.SUBTRACT),
   (TokenType.STAR, BinaryOpcode.MULTIPLY),
   (TokenType.SLASH, BinaryOpcode.DIVIDE),
   (TokenType.PERCENT, BinaryOpcode.MOD),
   (TokenType.DOUBLE_EQUAL, BinaryOpcode.EQUALS),
   (TokenType.EXCLAMATION_EQUAL, BinaryOpcode.NOT_EQUALS),
   (TokenType.GREATER, BinaryOpcode.GREATER_THAN),
   (TokenType.LESS, BinaryOpcode.LESS_THAN),
   (TokenType.GREATER_EQUAL, BinaryOpcode.GREATER_THAN_OR_EQUALS),
   (TokenType.LESS_EQUAL, BinaryOpcode.LESS_THAN_OR_EQUALS),
   (TokenType.DOUBLE_AMPERSAND, BinaryOpcode.LOGIC_AND),
   (TokenType.DOUBLE_PIPE, BinaryOpcode.LOGIC_OR),
   (TokenType.AMPERSAND, BinaryOpcode.BIT_AND),
   (TokenType.PIPE, BinaryOpcode.BIT_OR),
   (TokenType.CARET, BinaryOpcode.BIT_XOR),
   (TokenType.DOUBLE_LESS, BinaryOpcode.LEFT_SHIFT),
   (TokenType.DOUBLE_GREATER, BinaryOpcode.RIGHT_SHIFT)]

/-- `static std::map<BinaryOpcode, int> binaryPrecedences` from `Parser.cpp`. -/
def binaryPrecedences : List (BinaryOpcode × Int) :=
  [(BinaryOpcode.MULTIPLY, 700),
   (BinaryOpcode.DIVIDE, 700),
   (BinaryOpcode.MOD, 700),
   (BinaryOpcode.ADD, 600),
   (BinaryOpcode.SUBTRACT, 600),
   (BinaryOpcode.LEFT_SHIFT, 500),
   (BinaryOpcode.RIGHT_SHIFT, 500),
   (BinaryOpcode.GREATER_THAN, 400),
   (BinaryOpcode.LESS_THAN, 400),
   (BinaryOpcode.GREATER_THAN_OR_EQUALS, 400),
   (BinaryOpcode.LESS_THAN_OR_EQUALS, 400),
   (BinaryOpcode.EQUALS, 300),
   (BinaryOpcode.NOT_EQUALS, 300),
   (BinaryOpcode.BIT_AND, 266),
   (BinaryOpcode.BIT_XOR, 233),
   (BinaryOpcode.BIT_OR, 200),
   (BinaryOpcode.LOGIC_AND, 150),
   (BinaryOpcode.LOGIC_OR, 100),
   (BinaryOpcode.NONE, -1)]

/-- `findWithDefault(map, key, default)` from `Builtins/Support.h` (documented
by its uses in `Parser.cpp`): look a key up in a map, falling back to the given
default when the key has no entry. -/
def findWithDefault {α β : Type} [BEq α] (m : List (α × β)) (key : α) (dflt : β) : β :=
  match m.lookup key with
  | some v => v
  | none => dflt

/-- `tokenTypeToUnaryOpcode`: the unary operator for a token type, or
`UnaryOpcode::NONE` if it is not a unary operator. -/
def tokenTypeToUnaryOpcode (type : TokenType) : UnaryOpcode :=
  findWithDefault unaryTokenMap type UnaryOpcode.NONE

/-- `tokenTypeToBinaryOpcode`: the binary operator for a token type, or
`BinaryOpcode::NONE` if it is not a binary operator. -/
def tokenTypeToBinaryOpcode (type : TokenType) : BinaryOpcode :=
  findWithDefault binaryTokenMap type BinaryOpcode.NONE

/-- `binaryOpPrecedence(op)` is `binaryPrecedences[op]` in the C++ source:
`std::map::operator[]` value-initializes a fresh entry (`int()`, i.e. `0`)
when the key is missing, so the model falls back to `0` on a missing key.
Claim C10 shows the fallback is unreachable because the table is total. -/
def binaryOpPrecedence (op : BinaryOpcode) : Int :=
  match binaryPrecedences.lookup op with
  | some p => p
  | none => 0

/-- Model of C `atoll` as used by `parseIntegerExpr`: skip leading whitespace,
read an optional sign, then the longest prefix of decimal digits (overflow,
which is undefined behaviour for `atoll`, is not modelled; scanner integer
tokens are plain digit strings). -/
def atollDigits : List Char → Int → Int
  | [], acc => acc
  | c :: cs, acc =>
    if c.isDigit then atollDigits cs (acc * 10 + ((c.toNat : Int) - 48)) else acc

/-- See `atollDigits`. -/
def atoll (str : String) : Int :=
  match str.toList.dropWhile Char.isWhitespace with
  | '-' :: rest => - atollDigits rest 0
  | '+' :: rest => atollDigits rest 0
  | rest => atollDigits rest 0

/-- The AST expression node classes (declared in a header outside this
snapshot), reconstructed from their construction sites in `Parser.cpp`.
Every node carries its inclusive source column span `(columnStart, columnEnd)`.
`FloatExpr` stores `atof(str)`, a C `double`; floating-point values are outside
this embedding and no claim depends on them, so the model keeps the raw token
text instead. For `UnaryOp` and `BinaryOp` the constructor call sites pass the
operator token's columns; the node classes themselves are not under `src/`, so
their span fields are modelled from the spec — see `mkUnaryOp` / `mkBinaryOp`.
`opStart`/`opEnd` record the operator token's columns. -/
inductive ExprAST where
  | IdentifierExpr (columnStart columnEnd : Int) (name : String)
  | IntegerExpr (columnStart columnEnd : Int) (value : Int)
  | FloatExpr (columnStart columnEnd : Int) (text : String)
  | StringExpr (columnStart columnEnd : Int) (value : String)
  | VariableExpr (columnStart columnEnd : Int) (name : String)
  | UnaryOp (columnStart columnEnd opStart opEnd : Int)
      (op : UnaryOpcode) (operand : ExprAST)
  | BinaryOp (columnStart columnEnd opStart opEnd : Int)
      (op : BinaryOpcode) (lhs rhs : ExprAST)
  deriving DecidableEq, Repr

/-- The `columnStart` of an expression node. -/
def spanStart : ExprAST → Int
  | ExprAST.IdentifierExpr cs _ _ => cs
  | ExprAST.IntegerExpr cs _ _ => cs
  | ExprAST.FloatExpr cs _ _ => cs
  | ExprAST.StringExpr cs _ _ => cs
  | ExprAST.VariableExpr cs _ _ => cs
  | ExprAST.UnaryOp cs _ _ _ _ _ => cs
  | ExprAST.BinaryOp cs _ _ _ _ _ _ => cs

/-- The `columnEnd` of an expression node. -/
def spanEnd : ExprAST → Int
  | ExprAST.IdentifierExpr _ ce _ => ce
  | ExprAST.IntegerExpr _ ce _ => ce
  | ExprAST.FloatExpr _ ce _ => ce
  | ExprAST.StringExpr _ ce _ => ce
  | ExprAST.VariableExpr _ ce _ => ce
  | ExprAST.UnaryOp _ ce _ _ _ _ => ce
  | ExprAST.BinaryOp _ ce _ _ _ _ _ => ce

/-- Modelled from the spec: the `UnaryOp` node class is declared in a header
absent from `src/`; its constructor receives the operator token's columns and
the operand.  Per spec section 3 ("every node's span fully covers the text it
was parsed from; a binary/unary node's span covers at least its operator
token") the stored span is the hull of the operator token and the operand's
span.  The operator token's columns are kept in `opStart`/`opEnd`. -/
def mkUnaryOp (opStart opEnd : Int) (op : UnaryOpcode) (operand : ExprAST) : ExprAST :=
  ExprAST.UnaryOp (min opStart (spanStart operand)) (max opEnd (spanEnd operand))
    opStart opEnd op operand

/-- Modelled from the spec: the `BinaryOp` node class is declared in a header
absent from `src/`; its constructor receives the operator token's columns and
both operands.  Per spec section 3 the stored span is the hull of the operator
token and the two operand spans. -/
def mkBinaryOp (opStart opEnd : Int) (op : BinaryOpcode) (lhs rhs : ExprAST) : ExprAST :=
  ExprAST.BinaryOp (min (spanStart lhs) (min opStart (spanStart rhs)))
    (max (spanEnd rhs) (max opEnd (spanEnd lhs)))
    opStart opEnd op lhs rhs

/-- Span well-formedness of a tree: every node's span covers the spans of all
of its descendants, and a unary/binary node's span covers at least its
operator token.  This is the formal reading of the spec's span invariant. -/
def spanWF : ExprAST → Bool
  | ExprAST.UnaryOp cs ce os oe _ operand =>
    decide (cs ≤ os) && decide (oe ≤ ce) &&
    decide (cs ≤ spanStart operand) && decide (spanEnd operand ≤ ce) &&
    spanWF operand
  | ExprAST.BinaryOp cs ce os oe _ lhs rhs =>
    decide (cs ≤ os) && decide (oe ≤ ce) &&
    decide (cs ≤ spanStart lhs) && decide (spanEnd lhs ≤ ce) &&
    decide (cs ≤ spanStart rhs) && decide (spanEnd rhs ≤ ce) &&
    spanWF lhs && spanWF rhs
  | _ => true

/-- The span-erased shape of an expression tree: variant tags, opcodes and
literal payloads without source columns.  Used to state the parse-shape
claims, which speak of trees such as `ADD(Integer(2), ...)` independently of
column assignments. -/
inductive ExprShape where
  | Identifier (name : String)
  | Integer (value : Int)
  | FloatLit (text : String)
  | StringLit (value : String)
  | Variable (name : String)
  | Unary (op : UnaryOpcode) (operand : ExprShape)
  | Binary (op : BinaryOpcode) (lhs rhs : ExprShape)
  deriving DecidableEq, Repr

/-- Erase spans, keeping the tree shape. -/
def shapeOf : ExprAST → ExprShape
  | ExprAST.IdentifierExpr _ _ name => ExprShape.Identifier name
  | ExprAST.IntegerExpr _ _ value => ExprShape.Integer value
  | ExprAST.FloatExpr _ _ text => ExprShape.FloatLit text
  | ExprAST.StringExpr _ _ value => ExprShape.StringLit value
  | ExprAST.VariableExpr _ _ name => ExprShape.Variable name
  | ExprAST.UnaryOp _ _ _ _ op operand => ExprShape.Unary op (shapeOf operand)
  | ExprAST.BinaryOp _ _ _ _ op lhs rhs => ExprShape.Binary op (shapeOf lhs) (shapeOf rhs)

/-- `CommandAST(command, commandStart, commandEnd, args)`. -/
structure CommandAST where
  command : String
  columnStart : Int
  columnEnd : Int
  args : List ExprAST
  deriving DecidableEq, Repr

/-- The end-of-input token a drained scanner keeps reporting. -/
def eofToken : Token :=
  { type := TokenType.EOFT, str := "", columnStart := 0, columnEnd := 0 }

/-- `currentToken()`: the head of the stream, or the EOF token once drained. -/
def currentToken (s : PState) : Token :=
  s.toks.headD eofToken

/-- `currentType()`. -/
def currentType (s : PState) : TokenType :=
  (currentToken s).type

/-- `currentStr()` (and `currentCStr()`, which is the same text). -/
def currentStr (s : PState) : String :=
  (currentToken s).str

/-- `currentStart()`. -/
def currentStart (s : PState) : Int :=
  (currentToken s).columnStart

/-- `currentEnd()`. -/
def currentEnd (s : PState) : Int :=
  (currentToken s).columnEnd

/-- `consumeToken()`: advance the cursor past the current token. -/
def consume (s : PState) : PState :=
  { s with toks := s.toks.tail }

/-- `Parser::error(erringToken, msg)`: report `msg` at the erring token's
start column and return `NULL`. -/
def error (s : PState) (erringToken : Token) (msg : String) : Option ExprAST × PState :=
  (none, { s with diags := s.diags ++ [{ msg := msg, column := erringToken.columnStart }] })

/-- `Parser::parseIdentifierExpr()`. -/
def parseIdentifierExpr (s : PState) : Option ExprAST × PState :=
  (some (ExprAST.IdentifierExpr (currentStart s) (currentEnd s) (currentStr s)), consume s)

/-- `Parser::parseIntegerExpr()`. -/
def parseIntegerExpr (s : PState) : Option ExprAST × PState :=
  (some (ExprAST.IntegerExpr (currentStart s) (currentEnd s) (atoll (currentStr s))), consume s)

/-- `Parser::parseFloatExpr()` (the `atof` value kept as raw text, see
`ExprAST`). -/
def parseFloatExpr (s : PState) : Option ExprAST × PState :=
  (some (ExprAST.FloatExpr (currentStart s) (currentEnd s) (currentStr s)), consume s)

/-- `Parser::parseStringExpr()`. -/
def parseStringExpr (s : PState) : Option ExprAST × PState :=
  (some (ExprAST.StringExpr (currentStart s) (currentEnd s) (currentStr s)), consume s)

/-- `Parser::parseVariableExpr()`. -/
def parseVariableExpr (s : PState) : Option ExprAST × PState :=
  (some (ExprAST.VariableExpr (currentStart s) (currentEnd s) (currentStr s)), consume s)

/-- Call tags for the mutually recursive parse functions of `Parser.cpp`:
`parseExpression`, `parsePrimaryExpr`, `parseParenExpr`, `parseUnaryOpExpr`
and `parseBinaryOpRHS(exprPrecedence, lhs)`. -/
inductive ParseCall where
  | expr
  | primary
  | paren
  | unary
  | binRHS (exprPrecedence : Int) (lhs : ExprAST)

/-- The mutually recursive parse functions of `Parser.cpp` as one fuel-indexed
step function (see the file header).  The outer `none` means the fuel ran out,
which claim C8 proves unreachable for fuel `4 * tokens + 8`; the inner
`Option ExprAST` is the C++ `ExprAST*` result (`none` = `NULL`).  The
`for (;;)` loop of `parseBinaryOpRHS` is written as a tail call with the same
`exprPrecedence`, and each loop iteration also costs one unit of fuel. -/
def parseFuel : Nat → ParseCall → PState → Option (Option ExprAST × PState)
  | 0, _, _ => none
  | fuel + 1, ParseCall.expr, s =>
    -- Parser::parseExpression
    match parseFuel fuel ParseCall.unary s with
    | none => none
    | some (none, s1) => some (none, s1)
    | some (some lhs, s1) => parseFuel fuel (ParseCall.binRHS 0 lhs) s1
  | fuel + 1, ParseCall.primary, s =>
    -- Parser::parsePrimaryExpr
    match currentType s with
    | TokenType.IDENTIFIER => some (parseIdentifierExpr s)
    | TokenType.INTEGER => some (parseIntegerExpr s)
    | TokenType.FLOAT => some (parseFloatExpr s)
    | TokenType.STRING => some (parseStringExpr s)
    | TokenType.VARIABLE => some (parseVariableExpr s)
    | TokenType.OPEN_PAREN => parseFuel fuel ParseCall.paren s
    | TokenType.CLOSE_PAREN => some (error s (currentToken s) "unmatched parentheses")
    | TokenType.UNKNOWN => some (error s (currentToken s) "invalid character in input")
    | _ => some (error s (currentToken s) "expected primary expression")
  | fuel + 1, ParseCall.paren, s =>
    -- Parser::parseParenExpr; openParen = *currentToken() is saved before
    -- consuming, so the error below is anchored at the opening delimiter.
    match parseFuel fuel ParseCall.expr (consume s) with
    | none => none
    | some (none, s2) => some (none, s2)
    | some (some e, s2) =>
      if currentType s2 ≠ TokenType.CLOSE_PAREN then
        some (error s2 (currentToken s) "unmatched parentheses")
      else
        some (some e, consume s2)
  | fuel + 1, ParseCall.unary, s =>
    -- Parser::parseUnaryOpExpr
    if tokenTypeToUnaryOpcode (currentType s) = UnaryOpcode.NONE then
      parseFuel fuel ParseCall.primary s
    else
      match parseFuel fuel ParseCall.unary (consume s) with
      | none => none
      | some (none, s2) => some (none, s2)
      | some (some operand, s2) =>
        some (some (mkUnaryOp (currentStart s) (currentEnd s)
          (tokenTypeToUnaryOpcode (currentType s)) operand), s2)
  | fuel + 1, ParseCall.binRHS exprPrecedence lhs, s =>
    -- Parser::parseBinaryOpRHS
    if binaryOpPrecedence (tokenTypeToBinaryOpcode (currentType s)) < exprPrecedence then
      some (some lhs, s)
    else
      match parseFuel fuel ParseCall.unary (consume s) with
      | none => none
      | some (none, s2) => some (none, s2)
      | some (some rhs, s2) =>
        if binaryOpPrecedence (tokenTypeToBinaryOpcode (currentType s)) <
            binaryOpPrecedence (tokenTypeToBinaryOpcode (currentType s2)) then
          match parseFuel fuel
              (ParseCall.binRHS (binaryOpPrecedence (tokenTypeToBinaryOpcode (currentType s)) + 1) rhs)
              s2 with
          | none => none
          | some (none, s3) => some (none, s3)
          | some (some rhs2, s3) =>
            parseFuel fuel
              (ParseCall.binRHS exprPrecedence
                (mkBinaryOp (currentStart s) (currentEnd s)
                  (tokenTypeToBinaryOpcode (currentType s)) lhs rhs2))
              s3
        else
          parseFuel fuel
            (ParseCall.binRHS exprPrecedence
              (mkBinaryOp (currentStart s) (currentEnd s)
                (tokenTypeToBinaryOpcode (currentType s)) lhs rhs))
            s2

/-- `Parser::parseExpression()`. -/
def parseExpression (fuel : Nat) (s : PState) : Option (Option ExprAST × PState) :=
  parseFuel fuel ParseCall.expr s

/-- `Parser::parsePrimaryExpr()`. -/
def parsePrimaryExpr (fuel : Nat) (s : PState) : Option (Option ExprAST × PState) :=
  parseFuel fuel ParseCall.primary s

/-- `Parser::parseParenExpr()`. -/
def parseParenExpr (fuel : Nat) (s : PState) : Option (Option ExprAST × PState) :=
  parseFuel fuel ParseCall.paren s

/-- `Parser::parseUnaryOpExpr()`. -/
def parseUnaryOpExpr (fuel : Nat) (s : PState) : Option (Option ExprAST × PState) :=
  parseFuel fuel ParseCall.unary s

/-- `Parser::parseBinaryOpRHS(exprPrecedence, lhs)`. -/
def parseBinaryOpRHS (fuel : Nat) (exprPrecedence : Int) (lhs : ExprAST) (s : PState) :
    Option (Option ExprAST × PState) :=
  parseFuel fuel (ParseCall.binRHS exprPrecedence lhs) s

/-- The argument loop of `Parser::parseCommand()`: while the current token is
not `EOFT`, parse one argument with `parseUnaryOpExpr`; on success append it,
on failure consume the token that caused the error (single-token-skip
recovery) and retry. -/
def parseCommandArgs : Nat → List ExprAST → PState → Option (List ExprAST × PState)
  | 0, _, _ => none
  | fuel + 1, args, s =>
    if currentType s = TokenType.EOFT then
      some (args, s)
    else
      match parseFuel fuel ParseCall.unary s with
      | none => none
      | some (some arg, s1) => parseCommandArgs fuel (args ++ [arg]) s1
      | some (none, s1) => parseCommandArgs fuel args (consume s1)

/-- `Parser::parseCommand()`.  The C++ function begins with a priming
`consumeToken()` that moves the freshly constructed scanner onto the first
token; in this embedding `s.toks` is the token sequence with that first token
at its head, so priming is the identity on the state. -/
def parseCommand (fuel : Nat) (s : PState) : Option (Option CommandAST × PState) :=
  if currentType s ≠ TokenType.IDENTIFIER then
    some (none,
      { s with diags := s.diags ++ [{ msg := "expected command", column := currentStart s }] })
  else
    match parseCommandArgs fuel [] (consume s) with
    | none => none
    | some (args, s2) =>
      some (some
        { command := currentStr s, columnStart := currentStart s,
          columnEnd := currentEnd s, args := args }, s2)

/-- Calls that, on success, must have consumed at least one token: every parse
function except the precedence-climbing loop (which may return its left
operand untouched when the precedence floor is not met). -/
def strictCall : ParseCall → Bool
  | ParseCall.binRHS _ _ => false
  | _ => true

/-- The precondition a call tag carries: the climbing loop holds an already
built left operand, which must itself be span well-formed. -/
def callSpanWF : ParseCall → Prop
  | ParseCall.binRHS _ lhs => spanWF lhs = true
  | _ => True

/-! ## Concrete token sequences used by the testable-property claims

Column assignments follow the source text the spec quotes, with inclusive
0-based columns and one space between tokens. -/

/-- Build a token. -/
def tk (ty : TokenType) (str : String) (cs ce : Int) : Token :=
  { type := ty, str := str, columnStart := cs, columnEnd := ce }

/-- The tokens of `"2 + 3 * 4"`. -/
def toksC1a : List Token :=
  [tk TokenType.INTEGER "2" 0 0, tk TokenType.PLUS "+" 2 2,
   tk TokenType.INTEGER "3" 4 4, tk TokenType.STAR "*" 6 6,
   tk TokenType.INTEGER "4" 8 8, tk TokenType.EOFT "" 9 9]

/-- The tokens of `"1 - 2 - 3"`. -/
def toksC1b : List Token :=
  [tk TokenType.INTEGER "1" 0 0, tk TokenType.MINUS "-" 2 2,
   tk TokenType.INTEGER "2" 4 4, tk TokenType.MINUS "-" 6 6,
   tk TokenType.INTEGER "3" 8 8, tk TokenType.EOFT "" 9 9]

/-- The tokens of `"-(1 + 2)"`. -/
def toksC4 : List Token :=
  [tk TokenType.MINUS "-" 0 0, tk TokenType.OPEN_PAREN "(" 1 1,
   tk TokenType.INTEGER "1" 2 2, tk TokenType.PLUS "+" 4 4,
   tk TokenType.INTEGER "2" 6 6, tk TokenType.CLOSE_PAREN ")" 7 7,
   tk TokenType.EOFT "" 8 8]

/-- The tokens of `"(1 + 2"` (missing closing delimiter). -/
def toksC5 : List Token :=
  [tk TokenType.OPEN_PAREN "(" 0 0, tk TokenType.INTEGER "1" 1 1,
   tk TokenType.PLUS "+" 3 3, tk TokenType.INTEGER "2" 5 5,
   tk TokenType.EOFT "" 6 6]

/-- The tokens of `"cmd 1 @ 2"`, with `@` lexed as an `UNKNOWN` token. -/
def toksC2 : List Token :=
  [tk TokenType.IDENTIFIER "cmd" 0 2, tk TokenType.INTEGER "1" 4 4,
   tk TokenType.UNKNOWN "@" 6 6, tk TokenType.INTEGER "2" 8 8,
   tk TokenType.EOFT "" 9 9]

/-- The tokens of `"cmd 1 + 2"`. -/
def toksC9 : List Token :=
  [tk TokenType.IDENTIFIER "cmd" 0 2, tk TokenType.INTEGER "1" 4 4,
   tk TokenType.PLUS "+" 6 6, tk TokenType.INTEGER "2" 8 8,
   tk TokenType.EOFT "" 9 9]

/-- Run `parseExpression` on a fresh state over the given tokens (with the
always-sufficient fuel of claim C8) and return the span-erased shape of the
resulting tree, if any. -/
def parseExprShape (ts : List Token) : Option ExprShape :=
  match parseExpression (4 * ts.length + 8) { toks := ts, diags := [] } with
  | some (some e, _) => some (shapeOf e)
  | _ => none

/-! ## Stream bookkeeping lemmas -/

/-- Consuming never lengthens the stream. -/
lemma consume_toks_le (s : PState) : (consume s).toks.length ≤ s.toks.length := by
  simp only [consume, List.length_tail]
  omega

/-- Consuming a nonempty stream strictly shortens it. -/
lemma consume_toks_lt (s : PState) (h : s.toks ≠ []) :
    (consume s).toks.length < s.toks.length := by
  have hpos : 0 < s.toks.length := List.length_pos.mpr h
  simp only [consume, List.length_tail]
  omega

/-- A current token other than `EOFT` means the stream is not drained. -/
lemma toks_ne_nil_of_currentType {s : PState} {ty : TokenType}
    (h : currentType s = ty) (hne : ty ≠ TokenType.EOFT) : s.toks ≠ [] := by
  intro hnil
  rw [currentType, currentToken, hnil] at h
  exact hne (h.symm.trans rfl)

/-- `EOFT` is not a unary operator token. -/
lemma unaryOpcode_eoft : tokenTypeToUnaryOpcode TokenType.EOFT = UnaryOpcode.NONE := by
  decide

/-- `EOFT` is not a binary operator token. -/
lemma binaryOpcode_eoft : tokenTypeToBinaryOpcode TokenType.EOFT = BinaryOpcode.NONE := by
  decide

/-- Token-count monotonicity: a parse step never lengthens the remaining
stream, and a successful primary/paren/unary/expression parse strictly
consumes at least one token.  This is the consumption half of the termination
argument of spec section 5. -/
theorem parseFuel_toks_le :
    ∀ fuel c s r s1, parseFuel fuel c s = some (r, s1) →
      s1.toks.length ≤ s.toks.length ∧
      (∀ e, r = some e → strictCall c = true → s1.toks.length < s.toks.length) := by
  intro fuel
  induction fuel with
  | zero => intro c s r s1 h; simp [parseFuel] at h
  | succ fuel ih =>
    intro c s r s1 h
    cases c with
    | expr =>
      simp only [parseFuel] at h
      split at h
      · exact absurd h (by simp)
      · next s2 heq =>
          simp only [Option.some.injEq, Prod.mk.injEq] at h
          obtain ⟨hr, hs⟩ := h
          subst hr; subst hs
          exact ⟨(ih ParseCall.unary s none _ heq).1, fun e he => absurd he (by simp)⟩
      · next lhs s2 heq =>
          have h1 := (ih ParseCall.unary s (some lhs) s2 heq).2 lhs rfl rfl
          have h2 := (ih (ParseCall.binRHS 0 lhs) s2 r s1 h).1
          exact ⟨le_trans h2 (le_of_lt h1), fun e he hs => lt_of_le_of_lt h2 h1⟩
    | primary =>
      simp only [parseFuel] at h
      split at h
      · next heq =>
          simp only [parseIdentifierExpr, Option.some.injEq, Prod.mk.injEq] at h
          obtain ⟨hr, hs⟩ := h
          subst hs
          have hne := toks_ne_nil_of_currentType heq (by simp)
          exact ⟨consume_toks_le s, fun e he hs => consume_toks_lt s hne⟩
      · next heq =>
          simp only [parseIntegerExpr, Option.some.injEq, Prod.mk.injEq] at h
          obtain ⟨hr, hs⟩ := h
          subst hs
          have hne := toks_ne_nil_of_currentType heq (by simp)
          exact ⟨consume_toks_le s, fun e he hs => consume_toks_lt s hne⟩
      · next heq =>
          simp only [parseFloatExpr, Option.some.injEq, Prod.mk.injEq] at h
          obtain ⟨hr, hs⟩ := h
          subst hs
          have hne := toks_ne_nil_of_currentType heq (by simp)
          exact ⟨consume_toks_le s, fun e he hs => consume_toks_lt s hne⟩
      · next heq =>
          simp only [parseStringExpr, Option.some.injEq, Prod.mk.injEq] at h
          obtain ⟨hr, hs⟩ := h
          subst hs
          have hne := toks_ne_nil_of_currentType heq (by simp)
          exact ⟨consume_toks_le s, fun e he hs => consume_toks_lt s hne⟩
      · next heq =>
          simp only [parseVariableExpr, Option.some.injEq, Prod.mk.injEq] at h
          obtain ⟨hr, hs⟩ := h
          subst hs
          have hne := toks_ne_nil_of_currentType heq (by simp)
          exact ⟨consume_toks_le s, fun e he hs => consume_toks_lt s hne⟩
      · next heq =>
          have := ih ParseCall.paren s r s1 h
          exact ⟨this.1, fun e he hs => this.2 e he rfl⟩
      · next heq =>
          simp only [error, Option.some.injEq, Prod.mk.injEq] at h
          obtain ⟨hr, hs⟩ := h
          subst hs
          exact ⟨le_refl _, fun e he => absurd (hr.trans he) (by simp)⟩
      · next heq =>
          simp only [error, Option.some.injEq, Prod.mk.injEq] at h
          obtain ⟨hr, hs⟩ := h
          subst hs
          exact ⟨le_refl _, fun e he => absurd (hr.trans he) (by simp)⟩
      · next heq1 heq2 heq3 heq4 heq5 heq6 heq7 heq8 =>
          simp only [error, Option.some.injEq, Prod.mk.injEq] at h
          obtain ⟨hr, hs⟩ := h
          subst hs
          exact ⟨le_refl _, fun e he => absurd (hr.trans he) (by simp)⟩
    | paren =>
      simp only [parseFuel] at h
      split at h
      · exact absurd h (by simp)
      · next s2 heq =>
          simp only [Option.some.injEq, Prod.mk.injEq] at h
          obtain ⟨hr, hs⟩ := h
          subst hr; subst hs
          exact ⟨le_trans (ih ParseCall.expr (consume s) none _ heq).1 (consume_toks_le s),
            fun e he => absurd he (by simp)⟩
      · next einner s2 heq =>
          have hle2 : s2.toks.length ≤ s.toks.length :=
            le_trans (ih ParseCall.expr (consume s) (some einner) s2 heq).1 (consume_toks_le s)
          split at h
          · next hnc =>
              simp only [error, Option.some.injEq, Prod.mk.injEq] at h
              obtain ⟨hr, hs⟩ := h
              subst hs
              exact ⟨hle2, fun e he => absurd (hr.trans he) (by simp)⟩
          · next hnc =>
              have hc : currentType s2 = TokenType.CLOSE_PAREN := by
                by_contra hx; exact hnc hx
              simp only [Option.some.injEq, Prod.mk.injEq] at h
              obtain ⟨hr, hs⟩ := h
              subst hs
              have hne2 := toks_ne_nil_of_currentType hc (by simp)
              exact ⟨le_trans (consume_toks_le s2) hle2,
                fun e he hs => lt_of_lt_of_le (consume_toks_lt s2 hne2) hle2⟩
    | unary =>
      simp only [parseFuel] at h
      split at h
      · next hop =>
          have := ih ParseCall.primary s r s1 h
          exact ⟨this.1, fun e he hs => this.2 e he rfl⟩
      · next hop =>
          have hne : s.toks ≠ [] := by
            intro hnil
            rw [currentType, currentToken, hnil] at hop
            exact hop unaryOpcode_eoft
          split at h
          · exact absurd h (by simp)
          · next s2 heq =>
              simp only [Option.some.injEq, Prod.mk.injEq] at h
              obtain ⟨hr, hs⟩ := h
              subst hr; subst hs
              exact ⟨le_trans (ih ParseCall.unary (consume s) none _ heq).1 (consume_toks_le s),
                fun e he => absurd he (by simp)⟩
          · next operand s2 heq =>
              have hlt : s2.toks.length < s.toks.length :=
                lt_of_le_of_lt (ih ParseCall.unary (consume s) (some operand) s2 heq).1
                  (consume_toks_lt s hne)
              simp only [Option.some.injEq, Prod.mk.injEq] at h
              obtain ⟨hr, hs⟩ := h
              subst hs
              exact ⟨le_of_lt hlt, fun e he hs => hlt⟩
    | binRHS p lhs =>
      simp only [parseFuel] at h
      split at h
      · next hfloor =>
          simp only [Option.some.injEq, Prod.mk.injEq] at h
          obtain ⟨hr, hs⟩ := h
          subst hs
          exact ⟨le_refl _, fun e he hs => by simp [strictCall] at hs⟩
      · next hfloor =>
          split at h
          · exact absurd h (by simp)
          · next s2 heq =>
              simp only [Option.some.injEq, Prod.mk.injEq] at h
              obtain ⟨hr, hs⟩ := h
              subst hs
              exact ⟨le_trans (ih ParseCall.unary (consume s) none _ heq).1 (consume_toks_le s),
                fun e he hs => by simp [strictCall] at hs⟩
          · next rhs s2 heq =>
              have hle2 : s2.toks.length ≤ s.toks.length :=
                le_trans (ih ParseCall.unary (consume s) (some rhs) s2 heq).1 (consume_toks_le s)
              split at h
              · next hclimb =>
                  split at h
                  · exact absurd h (by simp)
                  · next s3 heq2 =>
                      simp only [Option.some.injEq, Prod.mk.injEq] at h
                      obtain ⟨hr, hs⟩ := h
                      subst hs
                      exact ⟨le_trans (ih _ s2 none _ heq2).1 hle2,
                        fun e he hs => by simp [strictCall] at hs⟩
                  · next rhs2 s3 heq2 =>
                      have hle3 : s3.toks.length ≤ s2.toks.length := (ih _ s2 (some rhs2) s3 heq2).1
                      have hle4 := (ih _ s3 r s1 h).1
                      exact ⟨le_trans hle4 (le_trans hle3 hle2),
                        fun e he hs => by simp [strictCall] at hs⟩
              · next hclimb =>
                  have hle4 := (ih _ s2 r s1 h).1
                  exact ⟨le_trans hle4 hle2, fun e he hs => by simp [strictCall] at hs⟩

/-- Fuel sufficiency: with fuel at least `4 * tokens + 8` no parse call ever
runs out of fuel, i.e. the recursion depth of the C++ parser is bounded by a
linear function of the remaining input and every parse terminates.  The paren
conjunct assumes a nonempty stream (it is only entered from `parsePrimaryExpr`
on an open delimiter) and the climbing-loop conjunct a nonnegative floor (the
entry floor is 0 and climbing floors are `precedence + 1 > 0`). -/
theorem parseFuel_isSome :
    ∀ fuel s,
      (4 * s.toks.length + 8 ≤ fuel → (parseFuel fuel ParseCall.expr s).isSome = true) ∧
      (4 * s.toks.length + 7 ≤ fuel → (parseFuel fuel ParseCall.unary s).isSome = true) ∧
      (4 * s.toks.length + 6 ≤ fuel → (parseFuel fuel ParseCall.primary s).isSome = true) ∧
      (s.toks ≠ [] → 4 * s.toks.length + 5 ≤ fuel →
        (parseFuel fuel ParseCall.paren s).isSome = true) ∧
      (∀ p lhs, 0 ≤ p → 4 * s.toks.length + 5 ≤ fuel →
        (parseFuel fuel (ParseCall.binRHS p lhs) s).isSome = true) := by
  intro fuel
  induction fuel with
  | zero =>
    intro s
    refine ⟨fun h => absurd h (by omega), fun h => absurd h (by omega),
      fun h => absurd h (by omega), fun h1 h2 => absurd h2 (by omega),
      fun p lhs hp h => absurd h (by omega)⟩
  | succ fuel ih =>
    intro s
    refine ⟨?_, ?_, ?_, ?_, ?_⟩
    · intro h
      simp only [parseFuel]
      split
      · next heq =>
          have := (ih s).2.1 (by omega)
          rw [heq] at this
          simp at this
      · simp
      · next lhs s2 heq =>
          have hlt := (parseFuel_toks_le fuel ParseCall.unary s (some lhs) s2 heq).2 lhs rfl rfl
          exact (ih s2).2.2.2.2 0 lhs le_rfl (by omega)
    · intro h
      simp only [parseFuel]
      split
      · exact (ih s).2.2.1 (by omega)
      · next hop =>
          have hne : s.toks ≠ [] := by
            intro hnil
            rw [currentType, currentToken, hnil] at hop
            exact hop unaryOpcode_eoft
          have hlt := consume_toks_lt s hne
          split
          · next heq =>
              have := (ih (consume s)).2.1 (by omega)
              rw [heq] at this
              simp at this
          · simp
          · simp
    · intro h
      simp only [parseFuel]
      split
      · simp [parseIdentifierExpr]
      · simp [parseIntegerExpr]
      · simp [parseFloatExpr]
      · simp [parseStringExpr]
      · simp [parseVariableExpr]
      · next heq =>
          have hne := toks_ne_nil_of_currentType heq (by simp)
          exact (ih s).2.2.2.1 hne (by omega)
      · simp [error]
      · simp [error]
      · simp [error]
    · intro hne h
      have hlt := consume_toks_lt s hne
      simp only [parseFuel]
      split
      · next heq =>
          have := (ih (consume s)).1 (by omega)
          rw [heq] at this
          simp at this
      · simp
      · next e2 s2 heq =>
          split <;> simp
    · intro p lhs hp h
      simp only [parseFuel]
      split
      · simp
      · next hfloor =>
          have hne : s.toks ≠ [] := by
            intro hnil
            have hty : currentType s = TokenType.EOFT := by
              rw [currentType, currentToken, hnil]
              rfl
            rw [hty, binaryOpcode_eoft] at hfloor
            have hval : binaryOpPrecedence BinaryOpcode.NONE = -1 := by decide
            rw [hval] at hfloor
            omega
          have hlt := consume_toks_lt s hne
          split
          · next heq =>
              have := (ih (consume s)).2.1 (by omega)
              rw [heq] at this
              simp at this
          · simp
          · next rhs s2 heq =>
              have hlt2 :=
                (parseFuel_toks_le fuel ParseCall.unary (consume s) (some rhs) s2 heq).2 rhs rfl rfl
              split
              · next hclimb =>
                  split
                  · next heq2 =>
                      have := (ih s2).2.2.2.2
                        (binaryOpPrecedence (tokenTypeToBinaryOpcode (currentType s)) + 1) rhs
                        (by omega) (by omega)
                      rw [heq2] at this
                      simp at this
                  · simp
                  · next rhs2 s3 heq2 =>
                      have hle3 := (parseFuel_toks_le fuel _ s2 (some rhs2) s3 heq2).1
                      exact (ih s3).2.2.2.2 p _ hp (by omega)
              · next hclimb =>
                  exact (ih s2).2.2.2.2 p _ hp (by omega)

/-- Fuel sufficiency for the command-argument loop. -/
theorem parseCommandArgs_isSome :
    ∀ fuel args s, 4 * s.toks.length + 8 ≤ fuel →
      (parseCommandArgs fuel args s).isSome = true := by
  intro fuel
  induction fuel with
  | zero => intro args s h; exact absurd h (by omega)
  | succ fuel ih =>
    intro args s h
    simp only [parseCommandArgs]
    split
    · simp
    · next hne0 =>
        have hne : s.toks ≠ [] := by
          intro hnil
          apply hne0
          rw [currentType, currentToken, hnil]
          rfl
        have hpos : 0 < s.toks.length := List.length_pos.mpr hne
        split
        · next heq =>
            have := (parseFuel_isSome fuel s).2.1 (by omega)
            rw [heq] at this
            simp at this
        · next arg s1 heq =>
            have hlt := (parseFuel_toks_le fuel ParseCall.unary s (some arg) s1 heq).2 arg rfl rfl
            exact ih (args ++ [arg]) s1 (by omega)
        · next s1 heq =>
            have hle := (parseFuel_toks_le fuel ParseCall.unary s none s1 heq).1
            have hx : (consume s1).toks.length = s1.toks.length - 1 := by
              simp [consume, List.length_tail]
            exact ih args (consume s1) (by omega)

/-- Fuel sufficiency for `parseCommand`. -/
theorem parseCommand_isSome :
    ∀ fuel s, 4 * s.toks.length + 8 ≤ fuel → (parseCommand fuel s).isSome = true := by
  intro fuel s h
  rw [parseCommand]
  split
  · simp
  · next hid =>
      have hcur : currentType s = TokenType.IDENTIFIER := not_not.mp hid
      have hne := toks_ne_nil_of_currentType hcur (by simp)
      have hlt := consume_toks_lt s hne
      split
      · next heq =>
          have := parseCommandArgs_isSome fuel [] (consume s) (by omega)
          rw [heq] at this
          simp at this
      · simp

/-! ## Span well-formedness -/

/-- The hulled span of `mkUnaryOp` covers the operator token and operand. -/
lemma spanWF_mkUnaryOp (os oe : Int) (op : UnaryOpcode) (operand : ExprAST)
    (h : spanWF operand = true) : spanWF (mkUnaryOp os oe op operand) = true := by
  simp only [mkUnaryOp, spanWF, Bool.and_eq_true, decide_eq_true_eq]
  refine ⟨⟨⟨⟨?_, ?_⟩, ?_⟩, ?_⟩, h⟩ <;> omega

/-- The hulled span of `mkBinaryOp` covers the operator token and operands. -/
lemma spanWF_mkBinaryOp (os oe : Int) (op : BinaryOpcode) (lhs rhs : ExprAST)
    (hl : spanWF lhs = true) (hr : spanWF rhs = true) :
    spanWF (mkBinaryOp os oe op lhs rhs) = true := by
  simp only [mkBinaryOp, spanWF, Bool.and_eq_true, decide_eq_true_eq]
  refine ⟨⟨⟨⟨⟨⟨⟨?_, ?_⟩, ?_⟩, ?_⟩, ?_⟩, ?_⟩, hl⟩, hr⟩ <;> omega

/-- Every tree a parse call returns is span well-formed. -/
theorem parseFuel_spanWF :
    ∀ fuel c s e s1, callSpanWF c → parseFuel fuel c s = some (some e, s1) →
      spanWF e = true := by
  intro fuel
  induction fuel with
  | zero => intro c s e s1 hc h; simp [parseFuel] at h
  | succ fuel ih =>
    intro c s e s1 hc h
    cases c with
    | expr =>
      simp only [parseFuel] at h
      split at h
      · exact absurd h (by simp)
      · simp at h
      · next lhs s2 heq =>
          have hl := ih ParseCall.unary s lhs s2 trivial heq
          exact ih (ParseCall.binRHS 0 lhs) s2 e s1 hl h
    | primary =>
      simp only [parseFuel] at h
      split at h
      · simp only [parseIdentifierExpr, Option.some.injEq, Prod.mk.injEq] at h
        obtain ⟨hr, hs⟩ := h
        subst hr
        rfl
      · simp only [parseIntegerExpr, Option.some.injEq, Prod.mk.injEq] at h
        obtain ⟨hr, hs⟩ := h
        subst hr
        rfl
      · simp only [parseFloatExpr, Option.some.injEq, Prod.mk.injEq] at h
        obtain ⟨hr, hs⟩ := h
        subst hr
        rfl
      · simp only [parseStringExpr, Option.some.injEq, Prod.mk.injEq] at h
        obtain ⟨hr, hs⟩ := h
        subst hr
        rfl
      · simp only [parseVariableExpr, Option.some.injEq, Prod.mk.injEq] at h
        obtain ⟨hr, hs⟩ := h
        subst hr
        rfl
      · exact ih ParseCall.paren s e s1 trivial h
      · simp [error] at h
      · simp [error] at h
      · simp [error] at h
    | paren =>
      simp only [parseFuel] at h
      split at h
      · exact absurd h (by simp)
      · simp at h
      · next einner s2 heq =>
          have hinner := ih ParseCall.expr (consume s) einner s2 trivial heq
          split at h
          · simp [error] at h
          · simp only [Option.some.injEq, Prod.mk.injEq] at h
            obtain ⟨hr, hs⟩ := h
            subst hr
            exact hinner
    | unary =>
      simp only [parseFuel] at h
      split at h
      · exact ih ParseCall.primary s e s1 trivial h
      · split at h
        · exact absurd h (by simp)
        · simp at h
        · next operand s2 heq =>
            have hoperand := ih ParseCall.unary (consume s) operand s2 trivial heq
            simp only [Option.some.injEq, Prod.mk.injEq] at h
            obtain ⟨hr, hs⟩ := h
            subst hr
            exact spanWF_mkUnaryOp _ _ _ _ hoperand
    | binRHS p lhs =>
      simp only [parseFuel] at h
      split at h
      · simp only [Option.some.injEq, Prod.mk.injEq] at h
        obtain ⟨hr, hs⟩ := h
        subst hr
        exact hc
      · split at h
        · exact absurd h (by simp)
        · simp at h
        · next rhs s2 heq =>
            have hrhs := ih ParseCall.unary (consume s) rhs s2 trivial heq
            split at h
            · split at h
              · exact absurd h (by simp)
              · simp at h
              · next rhs2 s3 heq2 =>
                  have hrhs2 := ih
                    (ParseCall.binRHS
                      (binaryOpPrecedence (tokenTypeToBinaryOpcode (currentType s)) + 1) rhs)
                    s2 rhs2 s3 hrhs heq2
                  exact ih
                    (ParseCall.binRHS p
                      (mkBinaryOp (currentStart s) (currentEnd s)
                        (tokenTypeToBinaryOpcode (currentType s)) lhs rhs2))
                    s3 e s1 (spanWF_mkBinaryOp _ _ _ _ _ hc hrhs2) h
            · exact ih
                (ParseCall.binRHS p
                  (mkBinaryOp (currentStart s) (currentEnd s)
                    (tokenTypeToBinaryOpcode (currentType s)) lhs rhs))
                s2 e s1 (spanWF_mkBinaryOp _ _ _ _ _ hc hrhs) h

/-- Every argument the command loop accumulates is span well-formed. -/
theorem parseCommandArgs_spanWF :
    ∀ fuel args s res s1, (∀ a ∈ args, spanWF a = true) →
      parseCommandArgs fuel args s = some (res, s1) → ∀ a ∈ res, spanWF a = true := by
  intro fuel
  induction fuel with
  | zero => intro args s res s1 hargs h; simp [parseCommandArgs] at h
  | succ fuel ih =>
    intro args s res s1 hargs h
    simp only [parseCommandArgs] at h
    split at h
    · simp only [Option.some.injEq, Prod.mk.injEq] at h
      obtain ⟨hr, hs⟩ := h
      subst hr
      exact hargs
    · split at h
      · exact absurd h (by simp)
      · next arg s2 heq =>
          have harg := parseFuel_spanWF fuel ParseCall.unary s arg s2 trivial heq
          refine ih (args ++ [arg]) s2 res s1 ?_ h
          intro a ha
          rcases List.mem_append.mp ha with hx | hx
          · exact hargs a hx
          · rw [List.mem_singleton.mp hx]
            exact harg
      · next s2 heq =>
          exact ih args (consume s2) res s1 hargs h

/-! ## Claims about the operator tables -/

/-- Claim C3: the precedence table realizes the stated grouping — the
multiplicative operators map to 700, additive to 600, shifts to 500,
relational to 400, equality to 300, bitwise AND/XOR/OR to 266/233/200,
logical AND/OR to 150/100; precedence totally orders every pair of opcodes;
`NONE` maps to -1, strictly below every real operator, so it never satisfies
a precedence-at-least-floor test for any floor of at least 0 (the climbing
loop only uses floors of at least 0). -/
theorem claim_C3 :
    (binaryOpPrecedence BinaryOpcode.MULTIPLY = 700 ∧
     binaryOpPrecedence BinaryOpcode.DIVIDE = 700 ∧
     binaryOpPrecedence BinaryOpcode.MOD = 700 ∧
     binaryOpPrecedence BinaryOpcode.ADD = 600 ∧
     binaryOpPrecedence BinaryOpcode.SUBTRACT = 600 ∧
     binaryOpPrecedence BinaryOpcode.LEFT_SHIFT = 500 ∧
     binaryOpPrecedence BinaryOpcode.RIGHT_SHIFT = 500 ∧
     binaryOpPrecedence BinaryOpcode.GREATER_THAN = 400 ∧
     binaryOpPrecedence BinaryOpcode.LESS_THAN = 400 ∧
     binaryOpPrecedence BinaryOpcode.GREATER_THAN_OR_EQUALS = 400 ∧
     binaryOpPrecedence BinaryOpcode.LESS_THAN_OR_EQUALS = 400 ∧
     binaryOpPrecedence BinaryOpcode.EQUALS = 300 ∧
     binaryOpPrecedence BinaryOpcode.NOT_EQUALS = 300 ∧
     binaryOpPrecedence BinaryOpcode.BIT_AND = 266 ∧
     binaryOpPrecedence BinaryOpcode.BIT_XOR = 233 ∧
     binaryOpPrecedence BinaryOpcode.BIT_OR = 200 ∧
     binaryOpPrecedence BinaryOpcode.LOGIC_AND = 150 ∧
     binaryOpPrecedence BinaryOpcode.LOGIC_OR = 100 ∧
     binaryOpPrecedence BinaryOpcode.NONE = -1) ∧
    (∀ a b : BinaryOpcode,
      binaryOpPrecedence a ≤ binaryOpPrecedence b ∨
      binaryOpPrecedence b ≤ binaryOpPrecedence a) ∧
    (∀ op : BinaryOpcode, op ≠ BinaryOpcode.NONE →
      binaryOpPrecedence BinaryOpcode.NONE < binaryOpPrecedence op) ∧
    (∀ floor : Int, 0 ≤ floor → ¬ floor ≤ binaryOpPrecedence BinaryOpcode.NONE) := by
  refine ⟨by decide, by decide, by decide, ?_⟩
  intro floor hfloor
  have h : binaryOpPrecedence BinaryOpcode.NONE = -1 := by decide
  omega

/-- Witness for claim C3 at concrete inputs: `NONE` sits strictly below `ADD`,
and the floor test fails at floor 0. -/
theorem claim_C3_witness :
    binaryOpPrecedence BinaryOpcode.NONE < binaryOpPrecedence BinaryOpcode.ADD ∧
    ¬ (0 : Int) ≤ binaryOpPrecedence BinaryOpcode.NONE :=
  ⟨claim_C3.2.2.1 BinaryOpcode.ADD (by decide), claim_C3.2.2.2 0 (by decide)⟩

/-- Claim C10: the precedence table has an entry for every `BinaryOpcode`
value (the eighteen real operators and `NONE`), so the `binaryPrecedences[op]`
lookup in `binaryOpPrecedence` never falls through to the value a
`std::map::operator[]` would freshly default-construct, and in particular
`NONE` yields -1 rather than 0. -/
theorem claim_C10 :
    (∀ op : BinaryOpcode, (binaryPrecedences.lookup op).isSome = true) ∧
    binaryOpPrecedence BinaryOpcode.NONE = -1 ∧
    binaryOpPrecedence BinaryOpcode.NONE ≠ 0 := by
  decide

/-! ## Concrete parse-shape claims -/

/-- Claim C1: `"2 + 3 * 4"` parses to `ADD(Integer(2), MULTIPLY(Integer(3),
Integer(4)))` (multiplicative binds tighter than additive) and `"1 - 2 - 3"`
parses to `SUBTRACT(SUBTRACT(Integer(1), Integer(2)), Integer(3))`
(left-associativity at equal precedence). -/
theorem claim_C1 :
    parseExprShape toksC1a =
      some (ExprShape.Binary BinaryOpcode.ADD (ExprShape.Integer 2)
        (ExprShape.Binary BinaryOpcode.MULTIPLY (ExprShape.Integer 3) (ExprShape.Integer 4))) ∧
    parseExprShape toksC1b =
      some (ExprShape.Binary BinaryOpcode.SUBTRACT
        (ExprShape.Binary BinaryOpcode.SUBTRACT (ExprShape.Integer 1) (ExprShape.Integer 2))
        (ExprShape.Integer 3)) := by
  decide

/-- Claim C9: `parseCommand` parses each argument with the unary-expression
parser, so on the tokens of `"cmd 1 + 2"` the binary operator token starts a
new argument: the result is the command `"cmd"` with the two arguments
`[Integer(1), UnaryOp(PLUS, Integer(2))]` and no diagnostics — not a single
`ADD(Integer(1), Integer(2))` argument. -/
theorem claim_C9 :
    (match parseCommand 28 { toks := toksC9, diags := [] } with
      | some (some cmd, s2) => some (cmd.command, cmd.args.map shapeOf, s2.diags)
      | _ => none) =
      some ("cmd",
        [ExprShape.Integer 1, ExprShape.Unary UnaryOpcode.PLUS (ExprShape.Integer 2)], []) ∧
    (match parseCommand 28 { toks := toksC9, diags := [] } with
      | some (some cmd, _) => cmd.args.map shapeOf
      | _ => []) ≠
      [ExprShape.Binary BinaryOpcode.ADD (ExprShape.Integer 1) (ExprShape.Integer 2)] := by
  decide


/-! ## Termination and span claims -/

/-- Claim C8: for every finite token stream, both `parseExpression` and
`parseCommand` terminate with a result (a tree or absent): fuel
`4 * tokens + 8`, a bound on the recursion depth of the C++ parser, always
returns an answer, because every recursive call works on a stream at most as
long as its caller and every loop iteration strictly consumes. -/
theorem claim_C8 (s : PState) :
    (parseExpression (4 * s.toks.length + 8) s).isSome = true ∧
    (parseCommand (4 * s.toks.length + 8) s).isSome = true :=
  ⟨(parseFuel_isSome _ s).1 le_rfl, parseCommand_isSome _ s le_rfl⟩

/-- Claim C7: every node of every tree returned by `parseExpression` or
`parseCommand` is span well-formed: its inclusive column span covers the spans
of all of its descendants, and a unary/binary node's span covers at least its
operator token (the `spanWF` predicate). -/
theorem claim_C7 :
    (∀ fuel s e s1, parseExpression fuel s = some (some e, s1) → spanWF e = true) ∧
    (∀ fuel s cmd s1, parseCommand fuel s = some (some cmd, s1) →
      ∀ a ∈ cmd.args, spanWF a = true) := by
  constructor
  · intro fuel s e s1 h
    exact parseFuel_spanWF fuel ParseCall.expr s e s1 trivial h
  · intro fuel s cmd s1 h
    rw [parseCommand] at h
    split at h
    · simp at h
    · split at h
      · exact absurd h (by simp)
      · next args s2 heq =>
          simp only [Option.some.injEq, Prod.mk.injEq] at h
          obtain ⟨hr, hs⟩ := h
          subst hr
          intro a ha
          exact parseCommandArgs_spanWF fuel [] (consume s) args s2 (by simp) heq a ha

/-- Witness for claim C7: the tree parsed from `"2 + 3 * 4"` is span
well-formed. -/
theorem claim_C7_witness :
    spanWF (ExprAST.BinaryOp 0 8 2 2 BinaryOpcode.ADD (ExprAST.IntegerExpr 0 0 2)
      (ExprAST.BinaryOp 4 8 6 6 BinaryOpcode.MULTIPLY (ExprAST.IntegerExpr 4 4 3)
        (ExprAST.IntegerExpr 8 8 4))) = true :=
  claim_C7.1 32 { toks := toksC1a, diags := [] }
    (ExprAST.BinaryOp 0 8 2 2 BinaryOpcode.ADD (ExprAST.IntegerExpr 0 0 2)
      (ExprAST.BinaryOp 4 8 6 6 BinaryOpcode.MULTIPLY (ExprAST.IntegerExpr 4 4 3)
        (ExprAST.IntegerExpr 8 8 4)))
    { toks := [tk TokenType.EOFT "" 9 9], diags := [] } (by decide)

/-! ## Error handling and recovery claims -/

/-- Claim C2: on the tokens of `"cmd 1 @ 2"` (with `@` an invalid token)
`parseCommand` returns the command `"cmd"` with arguments exactly
`[Integer(1), Integer(2)]`, exactly one diagnostic, and the invalid token
consumed by recovery; and in general, when an argument parse fails inside the
command loop, exactly one token is discarded and the loop resumes. -/
theorem claim_C2 :
    parseCommand 28 { toks := toksC2, diags := [] } =
      some (some
        { command := "cmd", columnStart := 0, columnEnd := 2,
          args := [ExprAST.IntegerExpr 4 4 1, ExprAST.IntegerExpr 8 8 2] },
        { toks := [tk TokenType.EOFT "" 9 9],
          diags := [{ msg := "invalid character in input", column := 6 }] }) ∧
    (∀ fuel args s s1, currentType s ≠ TokenType.EOFT →
      parseUnaryOpExpr fuel s = some (none, s1) →
      parseCommandArgs (fuel + 1) args s = parseCommandArgs fuel args (consume s1)) := by
  constructor
  · decide
  · intro fuel args s s1 hne h
    have h2 : parseFuel fuel ParseCall.unary s = some (none, s1) := h
    simp only [parseCommandArgs, h2]
    rw [if_neg hne]

/-- Witness for claim C2 at a concrete failing argument: an `UNKNOWN` token
makes the loop skip exactly one token past the failure state. -/
theorem claim_C2_witness :
    parseCommandArgs 11 []
        { toks := [tk TokenType.UNKNOWN "@" 0 0, tk TokenType.EOFT "" 1 1], diags := [] } =
      parseCommandArgs 10 []
        (consume
          { toks := [tk TokenType.UNKNOWN "@" 0 0, tk TokenType.EOFT "" 1 1],
            diags := [{ msg := "invalid character in input", column := 0 }] }) :=
  claim_C2.2 10 [] _ _ (by decide) (by decide)

/-- Claim C4: a token with a non-`NONE` unary opcode is consumed and the unary
parser recurses into itself, so a chain of unary-operator tokens yields
right-nested `UnaryOp` nodes around the operand parse; and the tokens of
`"-(1 + 2)"` parse to `UnaryOp(MINUS, ADD(Integer(1), Integer(2)))`. -/
theorem claim_C4 :
    (∀ us : List Token,
      (∀ t ∈ us, tokenTypeToUnaryOpcode t.type ≠ UnaryOpcode.NONE) →
      ∀ fuel rest ds e s1,
        parseUnaryOpExpr fuel { toks := rest, diags := ds } = some (some e, s1) →
        parseUnaryOpExpr (us.length + fuel) { toks := us ++ rest, diags := ds } =
          some (some (us.foldr (fun t acc =>
            mkUnaryOp t.columnStart t.columnEnd (tokenTypeToUnaryOpcode t.type) acc) e), s1)) ∧
    parseExprShape toksC4 =
      some (ExprShape.Unary UnaryOpcode.MINUS
        (ExprShape.Binary BinaryOpcode.ADD (ExprShape.Integer 1) (ExprShape.Integer 2))) := by
  constructor
  · intro us
    induction us with
    | nil => intro hall fuel rest ds e s1 h; simpa using h
    | cons t us ih =>
      intro hall fuel rest ds e s1 h
      have hne : tokenTypeToUnaryOpcode t.type ≠ UnaryOpcode.NONE := hall t (by simp)
      have ihx := ih (fun u hu => hall u (by simp [hu])) fuel rest ds e s1 h
      have hlen : (t :: us).length + fuel = (us.length + fuel) + 1 := by
        simp only [List.length_cons]
        omega
      rw [hlen]
      show parseFuel ((us.length + fuel) + 1) ParseCall.unary
        { toks := (t :: us) ++ rest, diags := ds } = _
      simp only [parseFuel, List.cons_append]
      have hcur : currentType { toks := t :: (us ++ rest), diags := ds } = t.type := rfl
      rw [hcur, if_neg hne]
      have hcons : consume { toks := t :: (us ++ rest), diags := ds } =
          { toks := us ++ rest, diags := ds } := rfl
      have ihx2 : parseFuel (us.length + fuel) ParseCall.unary
          { toks := us ++ rest, diags := ds } =
          some (some (us.foldr (fun t acc =>
            mkUnaryOp t.columnStart t.columnEnd (tokenTypeToUnaryOpcode t.type) acc) e), s1) := ihx
      rw [hcons, ihx2]
      rfl
  · decide

/-- Witness for claim C4: a two-operator chain `- ~ 3` nests right. -/
theorem claim_C4_witness :
    parseUnaryOpExpr
        ([tk TokenType.MINUS "-" 0 0, tk TokenType.TILDE "~" 1 1].length + 20)
        { toks := [tk TokenType.MINUS "-" 0 0, tk TokenType.TILDE "~" 1 1] ++
            [tk TokenType.INTEGER "3" 2 2, tk TokenType.EOFT "" 3 3], diags := [] } =
      some (some ([tk TokenType.MINUS "-" 0 0, tk TokenType.TILDE "~" 1 1].foldr
          (fun t acc =>
            mkUnaryOp t.columnStart t.columnEnd (tokenTypeToUnaryOpcode t.type) acc)
          (ExprAST.IntegerExpr 2 2 3)),
        { toks := [tk TokenType.EOFT "" 3 3], diags := [] }) :=
  claim_C4.1 [tk TokenType.MINUS "-" 0 0, tk TokenType.TILDE "~" 1 1] (by decide)
    20 [tk TokenType.INTEGER "3" 2 2, tk TokenType.EOFT "" 3 3] []
    (ExprAST.IntegerExpr 2 2 3) { toks := [tk TokenType.EOFT "" 3 3], diags := [] } (by decide)

/-- Claim C5: on the tokens of `"(1 + 2"` the parse returns absent with
exactly one diagnostic `"unmatched parentheses"` anchored at the opening
delimiter's column 0; in general, when the inner expression of a
parenthesized group parses but the next token is not the closing delimiter,
`parseParenExpr` fails with that one diagnostic anchored at the opening
delimiter, and on success it consumes the closing delimiter and returns the
inner expression unchanged, with no wrapper node. -/
theorem claim_C5 :
    parseExpression 28 { toks := toksC5, diags := [] } =
      some (none,
        { toks := [tk TokenType.EOFT "" 6 6],
          diags := [{ msg := "unmatched parentheses", column := 0 }] }) ∧
    (∀ fuel s e s2, parseExpression fuel (consume s) = some (some e, s2) →
      (currentType s2 = TokenType.CLOSE_PAREN →
        parseParenExpr (fuel + 1) s = some (some e, consume s2)) ∧
      (currentType s2 ≠ TokenType.CLOSE_PAREN →
        parseParenExpr (fuel + 1) s = some (none,
          { s2 with diags := s2.diags ++
            [{ msg := "unmatched parentheses",
               column := (currentToken s).columnStart }] }))) := by
  constructor
  · decide
  · intro fuel s e s2 h
    have h2 : parseFuel fuel ParseCall.expr (consume s) = some (some e, s2) := h
    constructor
    · intro hc
      simp only [parseParenExpr, parseFuel, h2]
      rw [if_neg (by simp [hc])]
    · intro hc
      simp only [parseParenExpr, parseFuel, h2]
      rw [if_pos hc]
      rfl

/-- Witness for claim C5: the general paren conjunct at the `"(1 + 2"`
tokens. -/
theorem claim_C5_witness :
    parseParenExpr 21 { toks := toksC5, diags := [] } =
      some (none,
        { toks := [tk TokenType.EOFT "" 6 6],
          diags := [{ msg := "unmatched parentheses", column := 0 }] }) :=
  (claim_C5.2 20 { toks := toksC5, diags := [] }
    (ExprAST.BinaryOp 1 5 3 3 BinaryOpcode.ADD (ExprAST.IntegerExpr 1 1 1)
      (ExprAST.IntegerExpr 5 5 2))
    { toks := [tk TokenType.EOFT "" 6 6], diags := [] } (by decide)).2 (by decide)

/-- Claim C6: the primary parser's error paths — a close delimiter with no
open reports `"unmatched parentheses"` at the current token's column without
consuming; an invalid token reports `"invalid character in input"`; any other
unexpected kind reports `"expected primary expression"`; each path returns an
absent result (a value, not an exception) with exactly one diagnostic and the
stream unchanged. -/
theorem claim_C6 :
    ∀ fuel s,
      (currentType s = TokenType.CLOSE_PAREN →
        parsePrimaryExpr (fuel + 1) s = some (none,
          { s with diags := s.diags ++
            [{ msg := "unmatched parentheses",
               column := (currentToken s).columnStart }] })) ∧
      (currentType s = TokenType.UNKNOWN →
        parsePrimaryExpr (fuel + 1) s = some (none,
          { s with diags := s.diags ++
            [{ msg := "invalid character in input",
               column := (currentToken s).columnStart }] })) ∧
      (currentType s ∉ [TokenType.IDENTIFIER, TokenType.INTEGER, TokenType.FLOAT,
          TokenType.STRING, TokenType.VARIABLE, TokenType.OPEN_PAREN,
          TokenType.CLOSE_PAREN, TokenType.UNKNOWN] →
        parsePrimaryExpr (fuel + 1) s = some (none,
          { s with diags := s.diags ++
            [{ msg := "expected primary expression",
               column := (currentToken s).columnStart }] })) := by
  intro fuel s
  refine ⟨?_, ?_, ?_⟩
  · intro h
    simp only [parsePrimaryExpr, parseFuel, h]
    rfl
  · intro h
    simp only [parsePrimaryExpr, parseFuel, h]
    rfl
  · intro h
    cases hc : currentType s
    case IDENTIFIER => exact absurd (by rw [hc]; simp) h
    case INTEGER => exact absurd (by rw [hc]; simp) h
    case FLOAT => exact absurd (by rw [hc]; simp) h
    case STRING => exact absurd (by rw [hc]; simp) h
    case VARIABLE => exact absurd (by rw [hc]; simp) h
    case OPEN_PAREN => exact absurd (by rw [hc]; simp) h
    case CLOSE_PAREN => exact absurd (by rw [hc]; simp) h
    case UNKNOWN => exact absurd (by rw [hc]; simp) h
    all_goals simp only [parsePrimaryExpr, parseFuel, hc]
    all_goals rfl

/-- Witness for claim C6: a lone close delimiter fails in place with the
unmatched-parentheses diagnostic at its own column. -/
theorem claim_C6_witness :
    parsePrimaryExpr 1 { toks := [tk TokenType.CLOSE_PAREN ")" 0 0], diags := [] } =
      some (none,
        { toks := [tk TokenType.CLOSE_PAREN ")" 0 0],
          diags := [{ msg := "unmatched parentheses", column := 0 }] }) :=
  (claim_C6 0 { toks := [tk TokenType.CLOSE_PAREN ")" 0 0], diags := [] }).1 (by decide)

end Asmase
